import Mathlib

/-!
Verification development for a static-file HTTP/1.1 server
(single-threaded pselect event loop, worker pool, per-connection state
machine).  The definitions below are a shallow embedding of the modules
that the event loop actually compiles and runs: `src/server/connection.rs`,
`src/server/connection_manager.rs`, `src/server/handlers.rs`,
`src/server/http_status.rs` and the loop driver `src/server/mod.rs`.
Requests are modelled after lossy UTF-8 decoding as `List Char`; raw
socket and file bytes are modelled as `List Nat` (each entry one octet).
-/

set_option autoImplicit false

set_option maxRecDepth 8000

/-- Connection lifecycle stages, from `ConnectionStage` in
`src/server/connection.rs`. -/
inductive ConnectionStage where
  | recv
  | parse
  | sendHeaders
  | sendFile
  | close
  deriving DecidableEq, Repr

/-- An open file handle: the file's bytes together with the current read
cursor.  Models `std::fs::File` as used by the handlers (sequential reads
plus relative seeks). -/
structure FileHandle where
  content : List Nat
  pos : Nat
  deriving DecidableEq, Repr

/-- Per-connection record, from `Connection` in `src/server/connection.rs`.
The 8 KiB `request_buffer` together with `request_len` is modelled by
`requestBuf`, the list of bytes received since the last reset (the valid
prefix `request_buffer[..request_len]`); its length is bounded by 8192
via hypotheses where that matters.  `Connection::new` fills the fields
exactly as below with an empty `requestBuf`. -/
structure Connection where
  fd : Int
  stage : ConnectionStage
  requestBuf : List Nat
  file : Option FileHandle
  fileSize : Nat
  fileSent : Nat
  headers : List Char
  headersSent : Nat
  isHead : Bool
  deriving DecidableEq, Repr

/-- `Connection::new` (src/server/connection.rs): fresh record in stage
Recv with empty buffers and no file. -/
def newConnection (fd : Int) : Connection :=
  { fd := fd
    stage := ConnectionStage.recv
    requestBuf := []
    file := none
    fileSize := 0
    fileSent := 0
    headers := []
    headersSent := 0
    isHead := false }

/-- Abstract view of the filesystem as consulted by the request parser:
existence, regular-file test, metadata availability, reported size,
open success and the byte content of each resolved path. -/
structure FsModel where
  pathExists : List Char → Bool
  isFile : List Char → Bool
  metaOk : List Char → Bool
  fileSize : List Char → Nat
  openOk : List Char → Bool
  content : List Char → List Nat

/-- HTTP status codes used by the server, from `HttpStatus` in
`src/server/http_status.rs`. -/
inductive HttpStatus where
  | ok
  | badRequest
  | forbidden
  | notFound
  | methodNotAllowed
  | payloadTooLarge
  | internalServerError
  deriving DecidableEq, Repr

/-- `HttpStatus::code` (src/server/http_status.rs). -/
def HttpStatus.code : HttpStatus → Nat
  | .ok => 200
  | .badRequest => 400
  | .forbidden => 403
  | .notFound => 404
  | .methodNotAllowed => 405
  | .payloadTooLarge => 413
  | .internalServerError => 500

/-- `HttpStatus::text` (src/server/http_status.rs). -/
def HttpStatus.text : HttpStatus → String
  | .ok => "OK"
  | .badRequest => "Bad Request"
  | .forbidden => "Forbidden"
  | .notFound => "Not Found"
  | .methodNotAllowed => "Method Not Allowed"
  | .payloadTooLarge => "Payload Too Large"
  | .internalServerError => "Internal Server Error"

/-- `HttpStatus::as_response_line` (src/server/http_status.rs):
the status line with trailing CRLF. -/
def HttpStatus.asResponseLine (s : HttpStatus) : List Char :=
  ("HTTP/1.1 " ++ toString s.code ++ " " ++ s.text ++ "\r\n").data

/-- Rust `char::is_whitespace` (the Unicode White_Space property), used
by `str::split_whitespace` on the request line. -/
def isRustWhitespace (c : Char) : Bool :=
  let n := c.toNat
  n == 0x09 || n == 0x0A || n == 0x0B || n == 0x0C || n == 0x0D || n == 0x20 ||
  n == 0x85 || n == 0xA0 || n == 0x1680 || (0x2000 ≤ n && n ≤ 0x200A) ||
  n == 0x2028 || n == 0x2029 || n == 0x202F || n == 0x205F || n == 0x3000

/-- Accumulator-passing worker for `splitWhitespaceR`; `acc` holds the
current token reversed. -/
def splitWSAux : List Char → List Char → List (List Char)
  | [], acc => if acc.isEmpty then [] else [acc.reverse]
  | c :: rest, acc =>
      if isRustWhitespace c then
        if acc.isEmpty then splitWSAux rest []
        else acc.reverse :: splitWSAux rest []
      else splitWSAux rest (c :: acc)

/-- Rust `str::split_whitespace` collected to a list: maximal runs of
non-whitespace characters, empties skipped. -/
def splitWhitespaceR (l : List Char) : List (List Char) :=
  splitWSAux l []

/-- Split a character list at every newline, keeping all (possibly empty)
parts; worker for `rustLines`. -/
def splitOnNewline : List Char → List (List Char)
  | [] => [[]]
  | c :: rest =>
      if c = '\n' then [] :: splitOnNewline rest
      else
        match splitOnNewline rest with
        | [] => [[c]]
        | h :: t => (c :: h) :: t

/-- Remove a single trailing carriage return, as Rust `str::lines` does to
each produced line. -/
def stripTrailingCR (l : List Char) : List Char :=
  match l.reverse with
  | '\r' :: rest => rest.reverse
  | _ => l

/-- Rust `str::lines` collected to a list: split on `\n`, drop the final
empty piece produced by a trailing newline, strip one trailing `\r` from
each line. -/
def rustLines (s : List Char) : List (List Char) :=
  if s.isEmpty then []
  else
    let parts := splitOnNewline s
    let parts2 := if (parts.getLastD [' ']).isEmpty then parts.dropLast else parts
    parts2.map stripTrailingCR

/-- Whether `pat` is a leading piece of `l` (generic list version of
`str::starts_with`). -/
def startsWithL {α : Type} [DecidableEq α] : List α → List α → Bool
  | [], _ => true
  | _ :: _, [] => false
  | p :: ps, c :: cs => if p = c then startsWithL ps cs else false

/-- Whether `pat` occurs contiguously anywhere inside `l` (generic list
version of `str::contains`, used for the `..` traversal guard). -/
def containsSub {α : Type} [DecidableEq α] (pat : List α) : List α → Bool
  | [] => pat.isEmpty
  | c :: rest => startsWithL pat (c :: rest) || containsSub pat rest

/-- Rust byte-slicing `&path[1..]` on a decoded string: well defined (the
remainder after the first character) exactly when byte index 1 is a char
boundary, i.e. when the first character is a single UTF-8 byte; otherwise
the Rust expression panics, modelled as `none`.  The empty string cannot
occur here (`split_whitespace` yields non-empty tokens). -/
def stripFirstByte : List Char → Option (List Char)
  | [] => none
  | c :: rest => if c.utf8Size = 1 then some rest else none

/-- `PathBuf::join` on Unix for the shapes the server produces: an
absolute right operand replaces the root; otherwise the components are
joined with a separator (none added when the root already ends in one or
is empty). -/
def pathJoin (root rel : List Char) : List Char :=
  if rel.headD ' ' = '/' then rel
  else if root.getLastD '/' = '/' then root ++ rel
  else root ++ '/' :: rel

/-- Split a file name at its last dot: `some (before, after)` when a dot
exists.  Worker for `rustExtension` (mirrors `str::rsplit_once('.')`). -/
def rsplitDot : List Char → Option (List Char × List Char)
  | [] => none
  | c :: rest =>
      match rsplitDot rest with
      | some (b, a) => some (c :: b, a)
      | none => if c = '.' then some ([], rest) else none

/-- The final path component (text after the last slash), modelling
`Path::file_name` for the paths the server builds. -/
def lastComponent (p : List Char) : List Char :=
  p.foldl (fun acc c => if c = '/' then [] else acc ++ [c]) []

/-- `Path::extension`: the portion of the file name after the final dot,
absent when there is no dot or the name's only dot is leading. -/
def rustExtension (p : List Char) : Option (List Char) :=
  match rsplitDot (lastComponent p) with
  | none => none
  | some (b, a) => if b.isEmpty then none else some a

/-- ASCII lowercase on a character list, modelling `str::to_lowercase` on
the extension (only the ASCII range can influence the MIME lookup, since
every table key is lowercase ASCII). -/
def toLowerL (l : List Char) : List Char :=
  l.map Char.toLower

/-- The MIME table of `get_content_type` (src/server/handlers.rs). -/
def mimeTypes : List (List Char × List Char) :=
  [ ("html".data, "text/html".data)
  , ("css".data, "text/css".data)
  , ("js".data, "application/javascript".data)
  , ("png".data, "image/png".data)
  , ("jpg".data, "image/jpeg".data)
  , ("jpeg".data, "image/jpeg".data)
  , ("gif".data, "image/gif".data)
  , ("svg".data, "image/svg+xml".data)
  , ("ico".data, "image/x-icon".data)
  , ("json".data, "application/json".data)
  , ("txt".data, "text/plain".data) ]

/-- Lookup worker: the first table value whose key equals `ext`. -/
def mimeFind (ext : List Char) : List (List Char × List Char) → Option (List Char)
  | [] => none
  | (k, v) :: rest => if k = ext then some v else mimeFind ext rest

/-- `get_content_type` (src/server/handlers.rs lines 302-328): lowercase
the extension (empty when absent) and look it up, defaulting to
`application/octet-stream`. -/
def getContentType (filePath : List Char) : List Char :=
  let ext := toLowerL ((rustExtension filePath).getD [])
  (mimeFind ext mimeTypes).getD ("application/octet-stream".data)

/-- Error body per status, from `format_error_response`
(src/server/handlers.rs lines 279-300). -/
def errorBody : HttpStatus → List Char
  | .notFound => "<html><body><h1>404 Not Found</h1></body></html>".data
  | .forbidden => "<html><body><h1>403 Forbidden</h1></body></html>".data
  | .badRequest => "<html><body><h1>400 Bad Request</h1></body></html>".data
  | .payloadTooLarge => "<html><body><h1>413 Payload Too Large</h1></body></html>".data
  | .internalServerError => "<html><body><h1>500 Internal Server Error</h1></body></html>".data
  | _ => "<html><body><h1>Error</h1></body></html>".data

/-- `format_error_response` (src/server/handlers.rs lines 279-300):
status line, text/html content type, the body's length and the body. -/
def formatErrorResponse (s : HttpStatus) : List Char :=
  s.asResponseLine ++
  "Content-Type: text/html\r\nContent-Length: ".data ++
  (toString (errorBody s).length).data ++
  "\r\nConnection: close\r\n\r\n".data ++
  errorBody s

/-- The 200 header block built at src/server/handlers.rs lines 267-272:
status line then `Content-Type`, `Content-Length`, `Connection: close`
and the blank line. -/
def okHeaders (contentType : List Char) (fileSize : Nat) : List Char :=
  HttpStatus.ok.asResponseLine ++
  "Content-Type: ".data ++ contentType ++
  "\r\nContent-Length: ".data ++ (toString fileSize).data ++
  "\r\nConnection: close\r\n\r\n".data

deriving instance DecidableEq for Except

/-- Outcome of `parse_http_request` (src/server/handlers.rs lines 191-275):
on success the 200 header block, the optionally opened file's bytes, the
file size and the HEAD flag; on failure the full error response bytes.
`none` models a Rust panic. -/
abbrev ParseOutcome : Type :=
  Option (Except (List Char) (List Char × Option (List Nat) × Nat × Bool))

/-- Filesystem portion of `parse_http_request` (src/server/handlers.rs
lines 224-274), applied to the resolved `file_path`: existence, regular
file and metadata checks, the size cap, MIME lookup, HEAD detection and
the open of the file for non-HEAD methods. -/
def parseResolved (method : List Char) (filePath : List Char)
    (maxFileSize : Nat) (fs : FsModel) : ParseOutcome :=
  if fs.pathExists filePath = false then
    some (Except.error (formatErrorResponse HttpStatus.notFound))
  else if fs.isFile filePath = false then
    some (Except.error (formatErrorResponse HttpStatus.forbidden))
  else if fs.metaOk filePath = false then
    some (Except.error (formatErrorResponse HttpStatus.internalServerError))
  else if maxFileSize < fs.fileSize filePath then
    some (Except.error (formatErrorResponse HttpStatus.payloadTooLarge))
  else
    let contentType := getContentType filePath
    let isHead := method = "HEAD".data
    if isHead then
      some (Except.ok (okHeaders contentType (fs.fileSize filePath), none,
        fs.fileSize filePath, true))
    else if fs.openOk filePath = false then
      some (Except.error (formatErrorResponse HttpStatus.internalServerError))
    else
      some (Except.ok (okHeaders contentType (fs.fileSize filePath),
        some (fs.content filePath), fs.fileSize filePath, false))

/-- Path portion of `parse_http_request` (src/server/handlers.rs lines
208-222): the `..` traversal guard, the `/` to `/index.html` rewrite, the
byte-level strip of the leading slash (which panics when the first
character is not a single UTF-8 byte, modelled by `none`) and the join
with the document root. -/
def parsePath (method path0 : List Char) (docRoot : List Char)
    (maxFileSize : Nat) (fs : FsModel) : ParseOutcome :=
  if containsSub "..".data path0 then
    some (Except.error (formatErrorResponse HttpStatus.forbidden))
  else
    let path := if path0 = "/".data then "/index.html".data else path0
    match stripFirstByte path with
    | none => none
    | some rest => parseResolved method (pathJoin docRoot rest) maxFileSize fs

/-- Request-line portion of `parse_http_request` (src/server/handlers.rs
lines 203-209): fewer than two whitespace tokens is a 400, otherwise the
first token is the method and the second the path. -/
def parseFirstLine (tokens : List (List Char)) (docRoot : List Char)
    (maxFileSize : Nat) (fs : FsModel) : ParseOutcome :=
  if tokens.length < 2 then
    some (Except.error (formatErrorResponse HttpStatus.badRequest))
  else
    parsePath (tokens.headD []) (tokens.getD 1 []) docRoot maxFileSize fs

/-- `parse_http_request` (src/server/handlers.rs lines 191-275) over the
lossily decoded request text. -/
def parseHttpRequest (requestStr : List Char) (docRoot : List Char)
    (maxFileSize : Nat) (fs : FsModel) : ParseOutcome :=
  let requestLines := rustLines requestStr
  if requestLines.isEmpty then
    some (Except.error (formatErrorResponse HttpStatus.badRequest))
  else
    parseFirstLine (splitWhitespaceR (requestLines.headD [])) docRoot
      maxFileSize fs

/-- Whether a byte is a UTF-8 continuation byte (`10xxxxxx`). -/
def isCont (b : Nat) : Bool :=
  0x80 ≤ b && b ≤ 0xBF

/-- The replacement character inserted by lossy decoding. -/
def replacementChar : Char := '�'

/-- Fuel-indexed worker for `utf8LossyDecode` (fuel only makes the
recursion structural; it never runs out when seeded with the input
length).  UTF-8 decoding with invalid maximal subparts replaced by
U+FFFD; the valid second-byte range of a three- or four-byte sequence
depends on the leading byte (overlong and surrogate encodings and values
above U+10FFFF are invalid). -/
def utf8DecodeAux : Nat → List Nat → List Char
  | 0, _ => []
  | _ + 1, [] => []
  | fuel + 1, b1 :: rest =>
      if b1 < 0x80 then
        Char.ofNat b1 :: utf8DecodeAux fuel rest
      else if 0xC2 ≤ b1 && b1 ≤ 0xDF then
        match rest with
        | b2 :: rest2 =>
            if isCont b2 then
              Char.ofNat ((b1 - 0xC0) * 64 + (b2 - 0x80)) :: utf8DecodeAux fuel rest2
            else replacementChar :: utf8DecodeAux fuel (b2 :: rest2)
        | [] => [replacementChar]
      else if 0xE0 ≤ b1 && b1 ≤ 0xEF then
        match rest with
        | b2 :: rest2 =>
            if (if b1 = 0xE0 then 0xA0 ≤ b2 && b2 ≤ 0xBF
                else if b1 = 0xED then 0x80 ≤ b2 && b2 ≤ 0x9F
                else isCont b2) then
              match rest2 with
              | b3 :: rest3 =>
                  if isCont b3 then
                    Char.ofNat ((b1 - 0xE0) * 4096 + (b2 - 0x80) * 64 + (b3 - 0x80)) ::
                      utf8DecodeAux fuel rest3
                  else replacementChar :: utf8DecodeAux fuel (b3 :: rest3)
              | [] => [replacementChar]
            else replacementChar :: utf8DecodeAux fuel (b2 :: rest2)
        | [] => [replacementChar]
      else if 0xF0 ≤ b1 && b1 ≤ 0xF4 then
        match rest with
        | b2 :: rest2 =>
            if (if b1 = 0xF0 then 0x90 ≤ b2 && b2 ≤ 0xBF
                else if b1 = 0xF4 then 0x80 ≤ b2 && b2 ≤ 0x8F
                else isCont b2) then
              match rest2 with
              | b3 :: rest3 =>
                  if isCont b3 then
                    match rest3 with
                    | b4 :: rest4 =>
                        if isCont b4 then
                          Char.ofNat ((b1 - 0xF0) * 262144 + (b2 - 0x80) * 4096 +
                            (b3 - 0x80) * 64 + (b4 - 0x80)) :: utf8DecodeAux fuel rest4
                        else replacementChar :: utf8DecodeAux fuel (b4 :: rest4)
                    | [] => [replacementChar]
                  else replacementChar :: utf8DecodeAux fuel (b3 :: rest3)
              | [] => [replacementChar]
            else replacementChar :: utf8DecodeAux fuel (b2 :: rest2)
        | [] => [replacementChar]
      else replacementChar :: utf8DecodeAux fuel rest

/-- `String::from_utf8_lossy`: every recursive step of `utf8DecodeAux`
consumes at least one byte, so the input length is always enough fuel. -/
def utf8LossyDecode (l : List Nat) : List Char :=
  utf8DecodeAux l.length l

/-- Index predicate of the first loop of `contains_double_newline`
(src/server/handlers.rs lines 332-340): CR LF CR LF at position `i`. -/
def crlfcrlfAt (b : List Nat) (i : Nat) : Bool :=
  b.getD i 0 = 13 && b.getD (i + 1) 0 = 10 &&
  b.getD (i + 2) 0 = 13 && b.getD (i + 3) 0 = 10

/-- Index predicate of the second loop of `contains_double_newline`
(src/server/handlers.rs lines 342-346): LF LF at position `i`. -/
def lflfAt (b : List Nat) (i : Nat) : Bool :=
  b.getD i 0 = 10 && b.getD (i + 1) 0 = 10

/-- A bounded existential over `0..n`, the shape of the source's `for`
loops with early `return true`. -/
def anyInRange (p : Nat → Bool) (n : Nat) : Bool :=
  (List.range n).any p

/-- `contains_double_newline` (src/server/handlers.rs lines 330-349): scan
`0..len-3` for CR LF CR LF, then `0..len-1` for LF LF (saturating
subtraction as in the source). -/
def containsDoubleNewline (b : List Nat) : Bool :=
  anyInRange (crlfcrlfAt b) (b.length - 3) || anyInRange (lflfAt b) (b.length - 1)

/-- Result of `TcpStream::read` into the free tail of the request buffer:
the bytes actually delivered (`ok []` is the zero-read the source treats
as peer close), `WouldBlock`, or another I/O error. -/
inductive ReadEvent where
  | ok (bytes : List Nat)
  | wouldBlock
  | ioError
  deriving DecidableEq, Repr

/-- Deterministic model of non-blocking `recv` on the slice
`request_buffer[request_len..]`: with a zero-length slice the call
returns 0 bytes no matter what the peer did; otherwise it delivers the
pending bytes up to the slice capacity, returns 0 bytes when the peer
has closed and nothing is pending, and `WouldBlock` when nothing is
pending on a live peer. -/
def recvResult (space : Nat) (pending : List Nat) (peerClosed : Bool) : ReadEvent :=
  if space = 0 then ReadEvent.ok []
  else if pending.isEmpty then
    if peerClosed then ReadEvent.ok [] else ReadEvent.wouldBlock
  else ReadEvent.ok (pending.take space)

/-- `handle_readable_in_pool` (src/server/handlers.rs lines 9-86), the
closure run under `with_connection`: ignore non-Recv stages; a zero read
closes; an error closes; otherwise extend the buffer and, when the
end-of-headers scan succeeds, snapshot, reset, move to Parse and parse
inline, installing the resulting headers (and file) and moving to
SendHeaders.  `none` models a panic escaping the closure. -/
def handleReadableInPool (fs : FsModel) (docRoot : List Char)
    (maxFileSize : Nat) (conn : Connection) (ev : ReadEvent) : Option Connection :=
  if conn.stage ≠ ConnectionStage.recv then some conn
  else
    match ev with
    | ReadEvent.ok [] => some { conn with stage := ConnectionStage.close }
    | ReadEvent.ok bytes =>
        let conn1 := { conn with requestBuf := conn.requestBuf ++ bytes }
        if containsDoubleNewline conn1.requestBuf then
          let requestStr := utf8LossyDecode conn1.requestBuf
          let conn2 := { conn1 with requestBuf := [], stage := ConnectionStage.parse }
          match parseHttpRequest requestStr docRoot maxFileSize fs with
          | none => none
          | some (Except.ok (headers, file, fileSize, isHead)) =>
              some { conn2 with
                      headers := headers
                      headersSent := 0
                      file := file.map (fun c => { content := c, pos := 0 })
                      fileSize := fileSize
                      isHead := isHead
                      stage := ConnectionStage.sendHeaders }
          | some (Except.error errHeaders) =>
              some { conn2 with
                      headers := errHeaders
                      headersSent := 0
                      stage := ConnectionStage.sendHeaders }
        else some conn1
    | ReadEvent.wouldBlock => some conn
    | ReadEvent.ioError => some { conn with stage := ConnectionStage.close }

/-- Result of `TcpStream::write`: the number of bytes accepted,
`WouldBlock`, or another I/O error. -/
inductive WriteEvent where
  | ok (n : Nat)
  | wouldBlock
  | ioError
  deriving DecidableEq, Repr

/-- Result of `File::read` into the 64 KiB stack buffer.  A successful
read is deterministic (the next chunk of the handle), so only the error
case needs an input. -/
inductive FileReadResult where
  | ok
  | ioError
  deriving DecidableEq, Repr

/-- `handle_writable_in_pool` (src/server/handlers.rs lines 88-188), the
closure run under `with_connection`.  SendHeaders: write the unsent
header tail; zero write or error closes; on reaching the end, HEAD or
fileless responses close, others move to SendFile.  SendFile: read up to
64 KiB from the file (advancing its cursor); an empty read means
completion; a partial socket write seeks the file back by the unsent
amount; `WouldBlock` seeks back the whole chunk; reaching `file_size`
closes. -/
def handleWritableInPool (conn : Connection) (wev : WriteEvent)
    (frr : FileReadResult) : Connection :=
  match conn.stage with
  | ConnectionStage.sendHeaders =>
      if conn.headersSent < conn.headers.length then
        match wev with
        | WriteEvent.ok 0 => { conn with stage := ConnectionStage.close }
        | WriteEvent.ok n =>
            let sent := conn.headersSent + n
            if conn.headers.length ≤ sent then
              if conn.isHead || conn.file.isNone then
                { conn with headersSent := sent, stage := ConnectionStage.close }
              else
                { conn with headersSent := sent, stage := ConnectionStage.sendFile }
            else { conn with headersSent := sent }
        | WriteEvent.wouldBlock => conn
        | WriteEvent.ioError => { conn with stage := ConnectionStage.close }
      else conn
  | ConnectionStage.sendFile =>
      match conn.file with
      | none => { conn with stage := ConnectionStage.close }
      | some fh =>
          match frr with
          | FileReadResult.ioError => { conn with stage := ConnectionStage.close }
          | FileReadResult.ok =>
              let chunk := (fh.content.drop fh.pos).take 65536
              if chunk.isEmpty then { conn with stage := ConnectionStage.close }
              else
                match wev with
                | WriteEvent.ok 0 =>
                    { conn with
                       file := some { fh with pos := fh.pos + chunk.length }
                       stage := ConnectionStage.close }
                | WriteEvent.ok w =>
                    let sent := conn.fileSent + w
                    if conn.fileSize ≤ sent then
                      { conn with
                         file := some { fh with pos := fh.pos + chunk.length }
                         fileSent := sent
                         stage := ConnectionStage.close }
                    else if w < chunk.length then
                      { conn with
                         file := some { fh with pos := fh.pos + w }
                         fileSent := sent }
                    else
                      { conn with
                         file := some { fh with pos := fh.pos + chunk.length }
                         fileSent := sent }
                | WriteEvent.wouldBlock => conn
                | WriteEvent.ioError =>
                    { conn with
                       file := some { fh with pos := fh.pos + chunk.length }
                       stage := ConnectionStage.close }
  | _ => conn

/-- Ideal-socket run of the SendFile stage: while the connection is in
SendFile, read the next chunk, let the socket accept it fully, and step
with `handleWritableInPool`; the emitted wire bytes are collected.
Fuel bounds the iteration. -/
def driveSendFile : Nat → Connection → List Nat
  | 0, _ => []
  | fuel + 1, conn =>
      if conn.stage = ConnectionStage.sendFile then
        match conn.file with
        | some fh =>
            let chunk := (fh.content.drop fh.pos).take 65536
            chunk ++ driveSendFile fuel
              (handleWritableInPool conn (WriteEvent.ok chunk.length) FileReadResult.ok)
        | none => []
      else []

/-- Position of a stage in the forward order
Recv, Parse, SendHeaders, SendFile, Close. -/
def stageRank : ConnectionStage → Nat
  | ConnectionStage.recv => 0
  | ConnectionStage.parse => 1
  | ConnectionStage.sendHeaders => 2
  | ConnectionStage.sendFile => 3
  | ConnectionStage.close => 4

/-- One completed invocation of a stage handler on a connection: either
the readable handler under some filesystem, configuration and read
event, or the writable handler under some write and file-read events. -/
inductive HandlerStep : Connection → Connection → Prop where
  | readable (fs : FsModel) (docRoot : List Char) (maxFileSize : Nat)
      (conn conn' : Connection) (ev : ReadEvent)
      (h : handleReadableInPool fs docRoot maxFileSize conn ev = some conn') :
      HandlerStep conn conn'
  | writable (conn : Connection) (wev : WriteEvent) (frr : FileReadResult) :
      HandlerStep conn (handleWritableInPool conn wev frr)

/-- The connection index of `ConnectionManager`
(src/server/connection_manager.rs), modelled as an association list
keyed by descriptor, plus the admission cap. -/
structure ConnectionManagerM where
  connections : List (Int × Connection)
  maxConnections : Nat
  deriving DecidableEq, Repr

/-- First value stored under `fd`, the model of `HashMap::get`. -/
def lookupFd : List (Int × Connection) → Int → Option Connection
  | [], _ => none
  | (k, v) :: rest, fd => if k = fd then some v else lookupFd rest fd

/-- `HashMap::insert`: replace the entry under `fd` when present,
otherwise append it. -/
def insertFd : List (Int × Connection) → Int → Connection → List (Int × Connection)
  | [], fd, c => [(fd, c)]
  | (k, v) :: rest, fd, c =>
      if k = fd then (fd, c) :: rest else (k, v) :: insertFd rest fd c

/-- Apply `f` to the entry under `fd` when present, the model of
`HashMap::get_mut` followed by field updates. -/
def updateFd : List (Int × Connection) → Int → (Connection → Connection) →
    List (Int × Connection)
  | [], _, _ => []
  | (k, v) :: rest, fd, f =>
      if k = fd then (k, f v) :: rest else (k, v) :: updateFd rest fd f

/-- `ConnectionManager::add_connection` (src/server/connection_manager.rs
lines 33-42): refuse when the live count has reached the cap, otherwise
insert a fresh `Connection::new` record under its descriptor. -/
def addConnection (cm : ConnectionManagerM) (fd : Int) : ConnectionManagerM × Bool :=
  if cm.maxConnections ≤ cm.connections.length then (cm, false)
  else
    ({ cm with connections := insertFd cm.connections fd (newConnection fd) }, true)

/-- `ConnectionManager::set_file_for_connection`
(src/server/connection_manager.rs lines 95-111): on a known descriptor
overwrite the `file`, `file_size` and `is_head` fields and report true;
otherwise report false. -/
def setFileForConnection (cm : ConnectionManagerM) (fd : Int)
    (file : FileHandle) (fileSize : Nat) (isHead : Bool) :
    ConnectionManagerM × Bool :=
  let setFields := fun (c : Connection) =>
    { c with
       file := some file
       fileSize := fileSize
       isHead := isHead }
  match lookupFd cm.connections fd with
  | some _ =>
      ({ cm with connections := updateFd cm.connections fd setFields }, true)
  | none => (cm, false)

/-- A `timespec` value as passed to `pselect`. -/
structure Timespec where
  tvSec : Int
  tvNsec : Int
  deriving DecidableEq, Repr

/-- The arguments `HttpServer::handle_ready_connections` passes to
`pselect`. -/
structure PselectCall where
  nfds : Int
  readFds : List Int
  writeFds : List Int
  errorFds : List Int
  timeout : Timespec
  sigmaskNull : Bool
  deriving DecidableEq, Repr

/-- Running maximum over a descriptor list, the `max_fd` tracking of
src/server/mod.rs lines 114-130. -/
def listMaxFd (fds : List Int) (init : Int) : Int :=
  fds.foldl (fun m fd => if m < fd then fd else m) init

/-- The `pselect` invocation built by `HttpServer::handle_ready_connections`
(src/server/mod.rs lines 105-146): the listener plus every readable
descriptor armed for read, writable descriptors for write, both groups
for error, `nfds` one above the tracked maximum, a fixed timeout of
0 seconds and 10,000,000 nanoseconds, and a null signal mask. -/
def buildPselectCall (listenerFd : Int) (readFds writeFds : List Int) : PselectCall :=
  let maxFd := listMaxFd writeFds (listMaxFd readFds listenerFd)
  { nfds := maxFd + 1
    readFds := listenerFd :: readFds
    writeFds := writeFds
    errorFds := readFds ++ writeFds
    timeout := { tvSec := 0, tvNsec := 10000000 }
    sigmaskNull := true }

/-- The timeout the repository's (unreferenced) `SelectHandler` module
would build from the configuration: `select_timeout` whole seconds
(src/server/select_handler.rs lines 60-63). -/
def timespecOfSeconds (s : Nat) : Timespec :=
  { tvSec := Int.ofNat s, tvNsec := 0 }

/-- The default of the `select_timeout` command-line option
(src/server/config.rs): one second. -/
def selectTimeoutDefault : Nat := 1

/-- Case-insensitive lookup in the MIME table, comparing keys and query
with both sides lowercased. -/
def ciMimeFind (ext : List Char) : List (List Char × List Char) → Option (List Char)
  | [] => none
  | (k, v) :: rest => if toLowerL k = toLowerL ext then some v else ciMimeFind ext rest

/-- The specification's wording of the content type: the MIME table's
case-insensitive mapping for the extension (absent extension treated as
the empty string), defaulting to `application/octet-stream`.  Stated
separately from `getContentType` so the two can be compared. -/
def specMime (ext : Option (List Char)) : List Char :=
  (ciMimeFind (ext.getD []) mimeTypes).getD ("application/octet-stream".data)

/-- A request line for `path` with the given method, terminated by an
empty header section. -/
def mkRequest (method p : List Char) : List Char :=
  method ++ ' ' :: (p ++ ' ' :: "HTTP/1.1\r\n\r\n".data)

/-- UTF-8 encoding of one character. -/
def utf8EncodeCharM (c : Char) : List Nat :=
  let n := c.toNat
  if n < 0x80 then [n]
  else if n < 0x800 then [0xC0 + n / 64, 0x80 + n % 64]
  else if n < 0x10000 then
    [0xE0 + n / 4096, 0x80 + (n / 64) % 64, 0x80 + n % 64]
  else
    [0xF0 + n / 262144, 0x80 + (n / 4096) % 64, 0x80 + (n / 64) % 64, 0x80 + n % 64]

/-- The UTF-8 bytes of a string, for building concrete wire inputs. -/
def strBytes (s : String) : List Nat :=
  (s.data.map utf8EncodeCharM).flatten

/-- A filesystem with no entries at all. -/
def fsNone : FsModel :=
  { pathExists := fun _ => false
    isFile := fun _ => false
    metaOk := fun _ => false
    fileSize := fun _ => 0
    openOk := fun _ => false
    content := fun _ => [] }

/-- A filesystem holding the single two-byte regular file `root/a.txt`. -/
def fsA : FsModel :=
  { pathExists := fun p => p = "root/a.txt".data
    isFile := fun p => p = "root/a.txt".data
    metaOk := fun p => p = "root/a.txt".data
    fileSize := fun _ => 2
    openOk := fun p => p = "root/a.txt".data
    content := fun p => if p = "root/a.txt".data then [104, 105] else [] }

/-- A filesystem holding the single one-byte regular file `root/a..txt`
(a legitimate name that happens to contain two consecutive dots). -/
def fsDots : FsModel :=
  { pathExists := fun p => p = "root/a..txt".data
    isFile := fun p => p = "root/a..txt".data
    metaOk := fun p => p = "root/a..txt".data
    fileSize := fun _ => 1
    openOk := fun p => p = "root/a..txt".data
    content := fun p => if p = "root/a..txt".data then [104] else [] }

/-- A Recv-stage connection whose 8 KiB request buffer is completely
full of bytes that contain no end-of-headers marker. -/
def conn8k : Connection :=
  { newConnection 7 with requestBuf := List.replicate 8192 97 }

/-- A request of exactly 8192 bytes whose final four bytes are CR LF CR
LF: the request line for `/a.txt` followed by one long header of `a`s. -/
def bigRequest : List Nat :=
  strBytes "GET /a.txt HTTP/1.1\r\nX: " ++ List.replicate 8164 97 ++ [13, 10, 13, 10]

/-- The same connection one byte before the end of `bigRequest`. -/
def bigConn : Connection :=
  { newConnection 7 with requestBuf := bigRequest.take 8191 }

/-- The expected state after `bigConn` receives the final LF: request
parsed, 200 headers for the two-byte `a.txt` installed, file attached. -/
def bigParsed : Connection :=
  { newConnection 7 with
     stage := ConnectionStage.sendHeaders
     file := some { content := [104, 105], pos := 0 }
     fileSize := 2
     headers := okHeaders "text/plain".data 2 }

/-- The wire bytes of `GET /nope.txt HTTP/1.1` with an empty header
section. -/
def reqNope : List Nat :=
  strBytes "GET /nope.txt HTTP/1.1\r\n\r\n"

/-- The state a fresh connection reaches within the single readable-handler
invocation that consumes `reqNope` against an empty filesystem: the 404
response is already installed and the stage is already SendHeaders. -/
def c2After : Connection :=
  { newConnection 7 with
     stage := ConnectionStage.sendHeaders
     headers := formatErrorResponse HttpStatus.notFound }

/-- Claim C3 (counterexample): the code's 404 response is not the literal
byte string the claim gives, because the claimed `Content-Length: 46`
does not match the 48-byte error body. -/
theorem c3_error_response_counterexample :
    formatErrorResponse HttpStatus.notFound ≠
      ("HTTP/1.1 404 Not Found\r\nContent-Type: text/html\r\nContent-Length: 46\r\nConnection: close\r\n\r\n<html><body><h1>404 Not Found</h1></body></html>").data := by
  decide

/-- Claim C3 (amended): for a GET of a non-existent file the parser
produces exactly the 404 template response with `Content-Type:
text/html`, a `Content-Length` of 48 matching the 48-byte body
`<html><body><h1>404 Not Found</h1></body></html>`, and `Connection:
close`. -/
theorem c3_error_response_amended :
    formatErrorResponse HttpStatus.notFound =
      ("HTTP/1.1 404 Not Found\r\nContent-Type: text/html\r\nContent-Length: 48\r\nConnection: close\r\n\r\n<html><body><h1>404 Not Found</h1></body></html>").data ∧
    (errorBody HttpStatus.notFound).length = 48 ∧
    parseHttpRequest "GET /nope.txt HTTP/1.1\r\n\r\n".data "static".data 100 fsNone =
      some (Except.error (formatErrorResponse HttpStatus.notFound)) := by
  refine ⟨by decide, by decide, by decide⟩

/-- Claim C5: the event loop's pselect call uses `nfds` one above the
maximum tracked descriptor and a null signal mask, but its timeout is the
hardcoded 10,000,000 nanoseconds rather than `select_timeout` seconds
(1 second under the default configuration). -/
theorem c5_pselect_timeout_hardcoded :
    (buildPselectCall 3 [4] [9]).nfds = 9 + 1 ∧
    (buildPselectCall 3 [4] [9]).sigmaskNull = true ∧
    (buildPselectCall 3 [4] [9]).timeout = { tvSec := 0, tvNsec := 10000000 } ∧
    (buildPselectCall 3 [4] [9]).timeout ≠ timespecOfSeconds selectTimeoutDefault := by
  refine ⟨by decide, by decide, by decide, by decide⟩

/-- Claim C9: the request parser is not total.  On the request
`GET Ж HTTP/1.1` (whose path token starts with a two-byte UTF-8
character) the byte-index slice `&path[1..]` is not on a character
boundary, so `parse_http_request` panics — modelled as `none` — and the
panic escapes the readable handler. -/
theorem c9_parse_panics_on_multibyte_path :
    parseHttpRequest "GET Ж HTTP/1.1\r\n\r\n".data "static".data 134217728 fsNone = none ∧
    handleReadableInPool fsNone "static".data 134217728 (newConnection 7)
      (ReadEvent.ok (strBytes "GET Ж HTTP/1.1\r\n\r\n")) = none := by
  refine ⟨by decide, by decide⟩

/-- Claim C2 (counterexample): one invocation of the pool's readable
handler on a complete request leaves the record already in SendHeaders
with the response headers installed; there is no intermediate state in
stage Parse awaiting a completion-channel drain by the event loop. -/
theorem c2_no_completion_channel_counterexample :
    handleReadableInPool fsNone "static".data 0 (newConnection 7)
      (ReadEvent.ok reqNope) = some c2After ∧
    c2After.stage = ConnectionStage.sendHeaders ∧
    c2After.stage ≠ ConnectionStage.parse ∧
    c2After.headers = formatErrorResponse HttpStatus.notFound ∧
    c2After.headers ≠ [] := by
  refine ⟨by decide, by decide, by decide, by decide, by decide⟩


/-- The header bytes a parse outcome installs on the record: the 200
block on success, the error response on failure. -/
def headersOfOutcome
    (r : Except (List Char) (List Char × Option (List Nat) × Nat × Bool)) : List Char :=
  match r with
  | Except.ok (headers, _, _, _) => headers
  | Except.error errHeaders => errHeaders

theorem getD_append_len : ∀ (xs l : List Nat) (j : Nat),
    (xs ++ l).getD (xs.length + j) 0 = l.getD j 0
  | [], l, j => by simp
  | x :: xs, l, j => by
      have h : (x :: xs).length + j = (xs.length + j) + 1 := by
        simp [List.length_cons]; omega
      rw [List.cons_append, h, List.getD_cons_succ, getD_append_len xs l j]

theorem exists_decomp_of_crlfcrlfAt (i : Nat) :
    ∀ b : List Nat, i + 3 < b.length → crlfcrlfAt b i = true →
      ∃ xs ys, b = xs ++ [13, 10, 13, 10] ++ ys := by
  induction i with
  | zero =>
      intro b hlen h
      cases b with
      | nil => simp at hlen
      | cons b0 t0 =>
        cases t0 with
        | nil => simp at hlen
        | cons b1 t1 =>
          cases t1 with
          | nil => simp at hlen
          | cons b2 t2 =>
            cases t2 with
            | nil => simp at hlen
            | cons b3 rest =>
              simp [crlfcrlfAt] at h
              refine ⟨[], rest, ?_⟩
              simp_all
  | succ i ih =>
      intro b hlen h
      cases b with
      | nil => simp at hlen
      | cons b0 rest =>
        have hlen' : i + 3 < rest.length := by
          simp [List.length_cons] at hlen; omega
        have h' : crlfcrlfAt rest i = true := by
          have e1 : i + 1 + 1 = (i + 1) + 1 := rfl
          have e2 : i + 1 + 2 = (i + 2) + 1 := by omega
          have e3 : i + 1 + 3 = (i + 3) + 1 := by omega
          simpa [crlfcrlfAt, e2, e3, List.getD_cons_succ] using h
        obtain ⟨xs, ys, hxy⟩ := ih rest hlen' h'
        exact ⟨b0 :: xs, ys, by simp [hxy]⟩

theorem exists_decomp_of_lflfAt (i : Nat) :
    ∀ b : List Nat, i + 1 < b.length → lflfAt b i = true →
      ∃ xs ys, b = xs ++ [10, 10] ++ ys := by
  induction i with
  | zero =>
      intro b hlen h
      cases b with
      | nil => simp at hlen
      | cons b0 t0 =>
        cases t0 with
        | nil => simp at hlen
        | cons b1 rest =>
          simp [lflfAt] at h
          refine ⟨[], rest, ?_⟩
          simp_all
  | succ i ih =>
      intro b hlen h
      cases b with
      | nil => simp at hlen
      | cons b0 rest =>
        have hlen' : i + 1 < rest.length := by
          simp [List.length_cons] at hlen; omega
        have h' : lflfAt rest i = true := by
          simpa [lflfAt, List.getD_cons_succ] using h
        obtain ⟨xs, ys, hxy⟩ := ih rest hlen' h'
        exact ⟨b0 :: xs, ys, by simp [hxy]⟩

theorem crlfcrlfAt_concat : ∀ (xs ys : List Nat),
    crlfcrlfAt (xs ++ [13, 10, 13, 10] ++ ys) xs.length = true
  | [], ys => by simp [crlfcrlfAt]
  | x :: xs, ys => by
      have ih := crlfcrlfAt_concat xs ys
      have e2 : xs.length + 1 + 2 = (xs.length + 2) + 1 := by omega
      have e3 : xs.length + 1 + 3 = (xs.length + 3) + 1 := by omega
      simpa [crlfcrlfAt, List.cons_append, List.length_cons, e2, e3,
        List.getD_cons_succ] using ih

theorem lflfAt_concat : ∀ (xs ys : List Nat),
    lflfAt (xs ++ [10, 10] ++ ys) xs.length = true
  | [], ys => by simp [lflfAt]
  | x :: xs, ys => by
      have ih := lflfAt_concat xs ys
      simpa [lflfAt, List.cons_append, List.length_cons,
        List.getD_cons_succ] using ih

theorem anyInRange_iff (p : Nat → Bool) (n : Nat) :
    anyInRange p n = true ↔ ∃ i, i < n ∧ p i = true := by
  simp [anyInRange, List.any_eq_true, List.mem_range]

theorem containsDoubleNewline_iff (b : List Nat) :
    containsDoubleNewline b = true ↔
      (∃ xs ys, b = xs ++ [13, 10, 13, 10] ++ ys) ∨
      (∃ xs ys, b = xs ++ [10, 10] ++ ys) := by
  constructor
  · intro h
    rcases Bool.or_eq_true_iff.mp h with h1 | h2
    · obtain ⟨i, hi, hp⟩ := (anyInRange_iff _ _).mp h1
      exact Or.inl (exists_decomp_of_crlfcrlfAt i b (by omega) hp)
    · obtain ⟨i, hi, hp⟩ := (anyInRange_iff _ _).mp h2
      exact Or.inr (exists_decomp_of_lflfAt i b (by omega) hp)
  · intro h
    rcases h with ⟨xs, ys, rfl⟩ | ⟨xs, ys, rfl⟩
    · apply Bool.or_eq_true_iff.mpr
      refine Or.inl ((anyInRange_iff _ _).mpr ⟨xs.length, ?_, crlfcrlfAt_concat xs ys⟩)
      have hl : (xs ++ [13, 10, 13, 10] ++ ys).length = xs.length + 4 + ys.length := by
        simp [List.length_append]
        omega
      rw [hl]
      omega
    · apply Bool.or_eq_true_iff.mpr
      refine Or.inr ((anyInRange_iff _ _).mpr ⟨xs.length, ?_, lflfAt_concat xs ys⟩)
      have hl : (xs ++ [10, 10] ++ ys).length = xs.length + 2 + ys.length := by
        simp [List.length_append]
        omega
      rw [hl]
      omega

theorem containsDoubleNewline_replicate97 :
    containsDoubleNewline (List.replicate 8192 97) = false := by
  by_contra hne
  rw [Bool.not_eq_false] at hne
  rcases (containsDoubleNewline_iff _).mp hne with ⟨xs, ys, h⟩ | ⟨xs, ys, h⟩
  · have : (13 : Nat) ∈ List.replicate 8192 97 := by
      rw [h]; simp
    exact absurd (List.eq_of_mem_replicate this) (by decide)
  · have : (10 : Nat) ∈ List.replicate 8192 97 := by
      rw [h]; simp
    exact absurd (List.eq_of_mem_replicate this) (by decide)

/-- Claim C4 (counterexample): a Recv connection whose 8 KiB buffer is
full and marker-free does not stay in Recv until the peer closes.  The
read slice has zero length, so `recv` returns 0 bytes even though the
peer is live with a byte pending, and the handler treats that as a peer
close and moves the connection to Close. -/
theorem c4_oversized_request_counterexample :
    recvResult (8192 - conn8k.requestBuf.length) [65] false = ReadEvent.ok [] ∧
    containsDoubleNewline conn8k.requestBuf = false ∧
    handleReadableInPool fsNone "static".data 0 conn8k (ReadEvent.ok []) =
      some { conn8k with stage := ConnectionStage.close } ∧
    ConnectionStage.close ≠ ConnectionStage.recv := by
  refine ⟨?_, containsDoubleNewline_replicate97, rfl, by decide⟩
  have hb : conn8k.requestBuf = List.replicate 8192 97 := rfl
  have hl : conn8k.requestBuf.length = 8192 := by rw [hb, List.length_replicate]
  rw [hl]
  norm_num [recvResult]

theorem lookupFd_insertFd_self : ∀ (l : List (Int × Connection)) (fd : Int) (c : Connection),
    lookupFd (insertFd l fd c) fd = some c
  | [], fd, c => by simp [insertFd, lookupFd]
  | (k, v) :: rest, fd, c => by
      by_cases h : k = fd
      · simp [insertFd, h, lookupFd]
      · simp [insertFd, h, lookupFd, lookupFd_insertFd_self rest fd c]

theorem insertFd_length_le : ∀ (l : List (Int × Connection)) (fd : Int) (c : Connection),
    (insertFd l fd c).length ≤ l.length + 1
  | [], fd, c => by simp [insertFd]
  | (k, v) :: rest, fd, c => by
      by_cases h : k = fd
      · simp [insertFd, h]
      · simpa [insertFd, h] using insertFd_length_le rest fd c

/-- Claim C7: `add_connection` inserts a fresh record in stage Recv and
returns true exactly when the live count is below `max_connections`;
otherwise it returns false and leaves the index unchanged; and when the
index respected the cap before the call it still does afterwards. -/
theorem c7_admission_cap (cm : ConnectionManagerM) (fd : Int)
    (hinv : cm.connections.length ≤ cm.maxConnections) :
    ((addConnection cm fd).2 = true ↔ cm.connections.length < cm.maxConnections) ∧
    ((addConnection cm fd).2 = false → (addConnection cm fd).1 = cm) ∧
    ((addConnection cm fd).2 = true →
      lookupFd (addConnection cm fd).1.connections fd = some (newConnection fd) ∧
      (newConnection fd).stage = ConnectionStage.recv) ∧
    (addConnection cm fd).1.connections.length ≤ cm.maxConnections := by
  by_cases h : cm.maxConnections ≤ cm.connections.length
  · have hres : addConnection cm fd = (cm, false) := by
      simp [addConnection, h]
    rw [hres]
    refine ⟨⟨fun hf => by simp at hf, fun hlt => by omega⟩, fun _ => rfl,
      fun ht => by simp at ht, hinv⟩
  · have hres : addConnection cm fd =
        ({ cm with connections := insertFd cm.connections fd (newConnection fd) }, true) := by
      simp [addConnection, h]
    rw [hres]
    refine ⟨⟨fun _ => by omega, fun _ => rfl⟩, fun hf => by simp at hf,
      fun _ => ⟨lookupFd_insertFd_self _ _ _, rfl⟩, ?_⟩
    have hle := insertFd_length_le cm.connections fd (newConnection fd)
    show (insertFd cm.connections fd (newConnection fd)).length ≤ cm.maxConnections
    omega

/-- Claim C7 witness: on an empty manager with cap 2, descriptor 5 is
admitted. -/
theorem c7_admission_cap_witness :
    (([] : List (Int × Connection)).length ≤ 2) ∧
    ((addConnection { connections := [], maxConnections := 2 } 5).2 = true ↔
      ([] : List (Int × Connection)).length < 2) :=
  ⟨by simp, (c7_admission_cap { connections := [], maxConnections := 2 } 5 (by simp)).1⟩

theorem lookupFd_updateFd_self : ∀ (l : List (Int × Connection)) (fd : Int)
    (f : Connection → Connection),
    lookupFd (updateFd l fd f) fd = (lookupFd l fd).map f
  | [], fd, f => by simp [updateFd, lookupFd]
  | (k, v) :: rest, fd, f => by
      by_cases h : k = fd
      · simp [updateFd, h, lookupFd]
      · simp [updateFd, h, lookupFd, lookupFd_updateFd_self rest fd f]

theorem lookupFd_updateFd_ne : ∀ (l : List (Int × Connection)) (fd fd' : Int)
    (f : Connection → Connection), fd' ≠ fd →
    lookupFd (updateFd l fd f) fd' = lookupFd l fd'
  | [], fd, fd', f, _ => by simp [updateFd]
  | (k, v) :: rest, fd, fd', f, hne => by
      by_cases h : k = fd
      · subst h
        have hk : ¬(k = fd') := fun h' => hne h'.symm
        simp [updateFd, lookupFd, hk]
      · simp [updateFd, h, lookupFd, lookupFd_updateFd_ne rest fd fd' f hne]

/-- Claim C10: `set_file_for_connection` on a known descriptor returns
true and rewrites exactly the `file`, `file_size` and `is_head` fields of
the addressed record — its stage, headers, headers-sent counter, request
buffer and descriptor are untouched, as is every other record and the
cap — while on an unknown descriptor it returns false and changes
nothing. -/
theorem c10_attach_file_frame (cm : ConnectionManagerM) (fd : Int)
    (file : FileHandle) (fileSize : Nat) (isHead : Bool) :
    (∀ c, lookupFd cm.connections fd = some c →
      (setFileForConnection cm fd file fileSize isHead).2 = true ∧
      lookupFd (setFileForConnection cm fd file fileSize isHead).1.connections fd =
        some { c with file := some file, fileSize := fileSize, isHead := isHead } ∧
      ({ c with file := some file, fileSize := fileSize, isHead := isHead } : Connection).stage = c.stage ∧
      ({ c with file := some file, fileSize := fileSize, isHead := isHead } : Connection).headers = c.headers ∧
      ({ c with file := some file, fileSize := fileSize, isHead := isHead } : Connection).headersSent = c.headersSent ∧
      ({ c with file := some file, fileSize := fileSize, isHead := isHead } : Connection).requestBuf = c.requestBuf ∧
      ({ c with file := some file, fileSize := fileSize, isHead := isHead } : Connection).fd = c.fd ∧
      (∀ fd', fd' ≠ fd →
        lookupFd (setFileForConnection cm fd file fileSize isHead).1.connections fd' =
          lookupFd cm.connections fd') ∧
      (setFileForConnection cm fd file fileSize isHead).1.maxConnections =
        cm.maxConnections) ∧
    (lookupFd cm.connections fd = none →
      setFileForConnection cm fd file fileSize isHead = (cm, false)) := by
  constructor
  · intro c hc
    refine ⟨?_, ?_, rfl, rfl, rfl, rfl, rfl, ?_, ?_⟩
    · simp only [setFileForConnection, hc]
    · simp only [setFileForConnection, hc]
      rw [lookupFd_updateFd_self, hc]
      rfl
    · intro fd' hne
      simp only [setFileForConnection, hc]
      exact lookupFd_updateFd_ne cm.connections fd fd' _ hne
    · simp only [setFileForConnection, hc]
  · intro hn
    simp only [setFileForConnection, hn]

/-- Claim C10 witness: attaching a one-byte file to the known descriptor
5 succeeds and flips only the three file fields. -/
theorem c10_attach_file_frame_witness :
    lookupFd [(5, newConnection 5)] 5 = some (newConnection 5) ∧
    (setFileForConnection { connections := [(5, newConnection 5)], maxConnections := 3 }
      5 { content := [104], pos := 0 } 1 false).2 = true :=
  ⟨by simp [lookupFd, newConnection],
   ((c10_attach_file_frame { connections := [(5, newConnection 5)], maxConnections := 3 }
      5 { content := [104], pos := 0 } 1 false).1 (newConnection 5)
      (by simp [lookupFd, newConnection])).1⟩

/-- Claim C8: every completed stage-handler invocation moves a
connection's stage only forward in the order
Recv, Parse, SendHeaders, SendFile, Close. -/
theorem c8_stage_monotone : ∀ (c c' : Connection), HandlerStep c c' →
    stageRank c.stage ≤ stageRank c'.stage := by
  intro c c' step
  cases step with
  | readable fs docRoot maxFileSize conn conn2 ev h =>
      by_cases hs : c.stage = ConnectionStage.recv
      · rw [hs]
        exact Nat.zero_le _
      · have hc : c' = c := by
          unfold handleReadableInPool at h
          rw [if_pos hs] at h
          exact (Option.some.inj h).symm
        rw [hc]
  | writable conn wev frr =>
      obtain ⟨cfd, cstage, cbuf, cfile, csz, csent, chdr, chsent, chead⟩ := c
      cases cstage <;>
        simp only [handleWritableInPool] <;>
        (repeat' split) <;>
        simp [stageRank]

/-- Claim C8 witness: a writable-handler step on a fresh connection does
not lower the stage rank. -/
theorem c8_stage_monotone_witness :
    stageRank (newConnection 3).stage ≤
      stageRank (handleWritableInPool (newConnection 3) WriteEvent.wouldBlock
        FileReadResult.ok).stage :=
  c8_stage_monotone _ _
    (HandlerStep.writable (newConnection 3) WriteEvent.wouldBlock FileReadResult.ok)

theorem handleReadable_complete (fs : FsModel) (docRoot : List Char) (maxFileSize : Nat)
    (conn : Connection) (bytes : List Nat) (hst : conn.stage = ConnectionStage.recv)
    (hne : bytes ≠ []) (hdn : containsDoubleNewline (conn.requestBuf ++ bytes) = true) :
    handleReadableInPool fs docRoot maxFileSize conn (ReadEvent.ok bytes) =
      match parseHttpRequest (utf8LossyDecode (conn.requestBuf ++ bytes)) docRoot maxFileSize fs with
      | none => none
      | some (Except.ok (headers, file, fileSize, isHead)) =>
          some { conn with
                  requestBuf := []
                  stage := ConnectionStage.sendHeaders
                  headers := headers
                  headersSent := 0
                  file := file.map (fun c => { content := c, pos := 0 })
                  fileSize := fileSize
                  isHead := isHead }
      | some (Except.error errHeaders) =>
          some { conn with
                  requestBuf := []
                  stage := ConnectionStage.sendHeaders
                  headers := errHeaders
                  headersSent := 0 } := by
  cases bytes with
  | nil => exact absurd rfl hne
  | cons b bs =>
      unfold handleReadableInPool
      rw [if_neg (by rw [hst]; simp)]
      simp only []
      rw [hdn]
      simp only [eq_self_iff_true, if_true]

/-- Claim C2 (amended theorem): request parsing runs inline in the pool's
readable handler; the same invocation that detects end-of-headers parses
the request and itself installs the resulting headers on the record and
advances the stage (through Parse) to SendHeaders — there is no
completion channel and no event-loop drain step. -/
theorem c2_inline_parse_install (fs : FsModel) (docRoot : List Char) (maxFileSize : Nat)
    (conn : Connection) (bytes : List Nat)
    (r : Except (List Char) (List Char × Option (List Nat) × Nat × Bool))
    (hst : conn.stage = ConnectionStage.recv) (hne : bytes ≠ [])
    (hdn : containsDoubleNewline (conn.requestBuf ++ bytes) = true)
    (hp : parseHttpRequest (utf8LossyDecode (conn.requestBuf ++ bytes)) docRoot maxFileSize fs =
      some r) :
    ∃ conn', handleReadableInPool fs docRoot maxFileSize conn (ReadEvent.ok bytes) = some conn' ∧
      conn'.stage = ConnectionStage.sendHeaders ∧
      conn'.headersSent = 0 ∧
      conn'.headers = headersOfOutcome r := by
  rw [handleReadable_complete fs docRoot maxFileSize conn bytes hst hne hdn]
  cases r with
  | error e =>
      simp only [hp]
      exact ⟨_, rfl, rfl, rfl, rfl⟩
  | ok t =>
      obtain ⟨h1, f1, s1, i1⟩ := t
      simp only [hp]
      exact ⟨_, rfl, rfl, rfl, rfl⟩

/-- Claim C2 witness: a fresh connection receiving `GET /nope.txt` in one
read ends the handler invocation in SendHeaders carrying the 404 bytes. -/
theorem c2_inline_parse_install_witness :
    (newConnection 9).stage = ConnectionStage.recv ∧
    containsDoubleNewline ((newConnection 9).requestBuf ++ reqNope) = true ∧
    (∃ conn', handleReadableInPool fsNone "static".data 0 (newConnection 9)
        (ReadEvent.ok reqNope) = some conn' ∧
      conn'.stage = ConnectionStage.sendHeaders ∧
      conn'.headersSent = 0 ∧
      conn'.headers = formatErrorResponse HttpStatus.notFound) :=
  ⟨rfl, by decide,
   c2_inline_parse_install fsNone "static".data 0 (newConnection 9) reqNope
     (Except.error (formatErrorResponse HttpStatus.notFound)) rfl (by decide)
     (by decide) (by decide)⟩

/-- Claim C4 (amended theorem): while no end-of-headers marker appears
the Recv handler only accumulates bytes and stays in Recv; but once
`request_len` reaches the 8192-byte capacity, the read into the empty
slice necessarily returns zero bytes — whether or not the peer closed —
and the handler treats that as a peer close, moving the connection to
Close rather than leaving it stuck in Recv. -/
theorem c4_recv_until_buffer_full (fs : FsModel) (docRoot : List Char) (maxFileSize : Nat)
    (conn : Connection) (bytes : List Nat) :
    (conn.stage = ConnectionStage.recv → bytes ≠ [] →
      containsDoubleNewline (conn.requestBuf ++ bytes) = false →
      handleReadableInPool fs docRoot maxFileSize conn (ReadEvent.ok bytes) =
        some { conn with requestBuf := conn.requestBuf ++ bytes }) ∧
    (conn.requestBuf.length = 8192 →
      ∀ (pending : List Nat) (peerClosed : Bool),
        recvResult (8192 - conn.requestBuf.length) pending peerClosed = ReadEvent.ok []) ∧
    (conn.stage = ConnectionStage.recv →
      handleReadableInPool fs docRoot maxFileSize conn (ReadEvent.ok []) =
        some { conn with stage := ConnectionStage.close }) := by
  refine ⟨?_, ?_, ?_⟩
  · intro hst hne hdn
    cases bytes with
    | nil => exact absurd rfl hne
    | cons b bs =>
        unfold handleReadableInPool
        rw [if_neg (by rw [hst]; simp)]
        simp only []
        rw [hdn]
        simp only [Bool.false_eq_true, if_false]
  · intro hlen pending peerClosed
    rw [hlen]
    norm_num [recvResult]
  · intro hst
    unfold handleReadableInPool
    rw [if_neg (by rw [hst]; simp)]

/-- Claim C4 witness: a one-byte read without a marker keeps a fresh
connection in Recv, and a full buffer forces the zero-length read result
even on a live peer. -/
theorem c4_recv_until_buffer_full_witness :
    handleReadableInPool fsNone "static".data 0 (newConnection 4) (ReadEvent.ok [71]) =
      some { newConnection 4 with requestBuf := (newConnection 4).requestBuf ++ [71] } ∧
    recvResult (8192 - conn8k.requestBuf.length) [65] false = ReadEvent.ok [] :=
  ⟨(c4_recv_until_buffer_full fsNone "static".data 0 (newConnection 4) [71]).1 rfl
      (by decide) (by decide),
   (c4_recv_until_buffer_full fsNone "static".data 0 conn8k [65]).2.1
      (by rw [show conn8k.requestBuf = List.replicate 8192 97 from rfl, List.length_replicate])
      [65] false⟩

theorem splitOnNewline_append : ∀ (a rest : List Char), (∀ c ∈ a, c ≠ '\n') →
    splitOnNewline (a ++ '\n' :: rest) = a :: splitOnNewline rest
  | [], rest, _ => by simp [splitOnNewline]
  | c :: a, rest, h => by
      have hc : c ≠ '\n' := h c (by simp)
      have ih := splitOnNewline_append a rest (fun x hx => h x (by simp [hx]))
      simp [splitOnNewline, hc, ih]

theorem stripTrailingCR_concat (l : List Char) :
    stripTrailingCR (l ++ ['\r']) = l := by
  simp [stripTrailingCR, List.reverse_append]

theorem rustLines_request (line : List Char) (hnl : ∀ c ∈ line, c ≠ '\n')
    (hne : line ≠ []) :
    rustLines (line ++ "\r\n\r\n".data) = [line, []] := by
  have harr : line ++ "\r\n\r\n".data = (line ++ ['\r']) ++ '\n' :: ('\r' :: '\n' :: []) := by
    simp
  have hnl2 : ∀ c ∈ line ++ ['\r'], c ≠ '\n' := by
    intro c hc
    rcases List.mem_append.mp hc with h | h
    · exact hnl c h
    · simp at h
      subst h
      decide
  have hsplit : splitOnNewline (line ++ "\r\n\r\n".data) =
      (line ++ ['\r']) :: splitOnNewline ('\r' :: '\n' :: []) := by
    rw [harr]
    exact splitOnNewline_append _ _ hnl2
  have htail : splitOnNewline ('\r' :: '\n' :: []) = [['\r'], []] := by decide
  have hemp : (line ++ "\r\n\r\n".data).isEmpty = false := by
    cases line with
    | nil => exact absurd rfl hne
    | cons c cs => simp
  unfold rustLines
  rw [hemp]
  simp only [Bool.false_eq_true, if_false, hsplit, htail]
  simp [stripTrailingCR_concat, stripTrailingCR]

theorem rustLines_two (l1 l2 : List Char) (h1 : ∀ c ∈ l1, c ≠ '\n')
    (h2 : ∀ c ∈ l2, c ≠ '\n') (hne : l1 ≠ []) :
    rustLines (l1 ++ '\r' :: '\n' :: (l2 ++ "\r\n\r\n".data)) = [l1, l2, []] := by
  have harr : l1 ++ '\r' :: '\n' :: (l2 ++ "\r\n\r\n".data) =
      (l1 ++ ['\r']) ++ '\n' :: ((l2 ++ ['\r']) ++ '\n' :: ('\r' :: '\n' :: [])) := by
    simp
  have hnl1 : ∀ c ∈ l1 ++ ['\r'], c ≠ '\n' := by
    intro c hc
    rcases List.mem_append.mp hc with h | h
    · exact h1 c h
    · simp at h
      subst h
      decide
  have hnl2 : ∀ c ∈ l2 ++ ['\r'], c ≠ '\n' := by
    intro c hc
    rcases List.mem_append.mp hc with h | h
    · exact h2 c h
    · simp at h
      subst h
      decide
  have hsplit : splitOnNewline (l1 ++ '\r' :: '\n' :: (l2 ++ "\r\n\r\n".data)) =
      (l1 ++ ['\r']) :: (l2 ++ ['\r']) :: splitOnNewline ('\r' :: '\n' :: []) := by
    rw [harr, splitOnNewline_append _ _ hnl1, splitOnNewline_append _ _ hnl2]
  have htail : splitOnNewline ('\r' :: '\n' :: []) = [['\r'], []] := by decide
  have hemp : (l1 ++ '\r' :: '\n' :: (l2 ++ "\r\n\r\n".data)).isEmpty = false := by
    cases l1 with
    | nil => exact absurd rfl hne
    | cons c cs => simp
  unfold rustLines
  rw [hemp]
  simp only [Bool.false_eq_true, if_false, hsplit, htail]
  simp [stripTrailingCR_concat, stripTrailingCR]

theorem splitWSAux_token : ∀ (t rest acc : List Char),
    (∀ c ∈ t, isRustWhitespace c = false) → (t = [] → acc ≠ []) →
    splitWSAux (t ++ ' ' :: rest) acc = (acc.reverse ++ t) :: splitWSAux rest []
  | [], rest, acc, _, hacc => by
      have hsp : isRustWhitespace ' ' = true := by decide
      have hne : acc.isEmpty = false := by
        cases acc with
        | nil => exact absurd rfl (hacc rfl)
        | cons x xs => simp
      simp [splitWSAux, hsp, hne]
  | c :: t, rest, acc, hws, _ => by
      have hc : isRustWhitespace c = false := hws c (by simp)
      have ih := splitWSAux_token t rest (c :: acc)
        (fun x hx => hws x (by simp [hx])) (fun _ => by simp)
      simp [splitWSAux, hc, ih]

theorem splitWSAux_last : ∀ (t acc : List Char),
    (∀ c ∈ t, isRustWhitespace c = false) → (t = [] → acc ≠ []) →
    splitWSAux t acc = [acc.reverse ++ t]
  | [], acc, _, hacc => by
      have hne : acc.isEmpty = false := by
        cases acc with
        | nil => exact absurd rfl (hacc rfl)
        | cons x xs => simp
      simp [splitWSAux, hne]
  | c :: t, acc, hws, _ => by
      have hc : isRustWhitespace c = false := hws c (by simp)
      have ih := splitWSAux_last t (c :: acc)
        (fun x hx => hws x (by simp [hx])) (fun _ => by simp)
      simp [splitWSAux, hc, ih]

theorem splitWhitespaceR_three (t1 t2 t3 : List Char)
    (hw1 : ∀ c ∈ t1, isRustWhitespace c = false)
    (hw2 : ∀ c ∈ t2, isRustWhitespace c = false)
    (hw3 : ∀ c ∈ t3, isRustWhitespace c = false)
    (hn1 : t1 ≠ []) (hn2 : t2 ≠ []) (hn3 : t3 ≠ []) :
    splitWhitespaceR (t1 ++ ' ' :: (t2 ++ ' ' :: t3)) = [t1, t2, t3] := by
  unfold splitWhitespaceR
  rw [splitWSAux_token t1 _ [] hw1 (fun h => absurd h hn1)]
  rw [splitWSAux_token t2 _ [] hw2 (fun h => absurd h hn2)]
  rw [splitWSAux_last t3 [] hw3 (fun h => absurd h hn3)]
  simp

theorem flatten_encode_ascii : ∀ (cs : List Char), (∀ c ∈ cs, c.toNat < 128) →
    (cs.map utf8EncodeCharM).flatten = cs.map Char.toNat
  | [], _ => rfl
  | c :: cs, h => by
      have hc : c.toNat < 128 := h c (by simp)
      have ih := flatten_encode_ascii cs (fun x hx => h x (by simp [hx]))
      simp [utf8EncodeCharM, hc, ih]

theorem utf8DecodeAux_ascii : ∀ (fuel : Nat) (cs : List Char), cs.length ≤ fuel →
    (∀ c ∈ cs, c.toNat < 128) → utf8DecodeAux fuel (cs.map Char.toNat) = cs
  | 0, cs, hlen, _ => by
      cases cs with
      | nil => rfl
      | cons c cs => simp at hlen
  | fuel + 1, [], _, _ => rfl
  | fuel + 1, c :: cs, hlen, h => by
      have hc : c.toNat < 128 := h c (by simp)
      have ih := utf8DecodeAux_ascii fuel cs (by simp at hlen; omega)
        (fun x hx => h x (by simp [hx]))
      simp [utf8DecodeAux, hc, ih, Char.ofNat_toNat]

theorem utf8LossyDecode_ascii (cs : List Char) (h : ∀ c ∈ cs, c.toNat < 128) :
    utf8LossyDecode (cs.map Char.toNat) = cs := by
  unfold utf8LossyDecode
  rw [List.length_map]
  exact utf8DecodeAux_ascii cs.length cs (le_refl _) h

theorem strBytes_lead :
    strBytes "GET /a.txt HTTP/1.1\r\nX: " =
      "GET /a.txt HTTP/1.1\r\nX: ".data.map Char.toNat := by decide

theorem bigRequest_map :
    bigRequest =
      ("GET /a.txt HTTP/1.1\r\nX: ".data ++ List.replicate 8164 'a' ++
        "\r\n\r\n".data).map Char.toNat := by
  rw [List.map_append, List.map_append, List.map_replicate]
  rw [show List.replicate 8164 ('a'.toNat) = List.replicate 8164 97 from rfl]
  rw [show "GET /a.txt HTTP/1.1\r\nX: ".data.map Char.toNat =
    strBytes "GET /a.txt HTTP/1.1\r\nX: " from by decide]
  rw [show "\r\n\r\n".data.map Char.toNat = ([13, 10, 13, 10] : List Nat) from by decide]
  rfl

theorem bigRequest_decode :
    utf8LossyDecode bigRequest =
      "GET /a.txt HTTP/1.1".data ++ '\r' :: '\n' ::
        (("X: ".data ++ List.replicate 8164 'a') ++ "\r\n\r\n".data) := by
  rw [bigRequest_map]
  have hascii : ∀ c ∈ "GET /a.txt HTTP/1.1\r\nX: ".data ++ List.replicate 8164 'a' ++
      "\r\n\r\n".data, c.toNat < 128 := by
    have hA : ∀ c ∈ "GET /a.txt HTTP/1.1\r\nX: ".data, c.toNat < 128 := by decide
    have hB : ∀ c ∈ "\r\n\r\n".data, c.toNat < 128 := by decide
    intro c hc
    rcases List.mem_append.mp hc with h | h
    · rcases List.mem_append.mp h with h1 | h1
      · exact hA c h1
      · rw [List.eq_of_mem_replicate h1]
        decide
    · exact hB c h
  rw [utf8LossyDecode_ascii _ hascii]
  rw [show "GET /a.txt HTTP/1.1\r\nX: ".data =
    "GET /a.txt HTTP/1.1".data ++ '\r' :: '\n' :: "X: ".data from by decide]
  simp only [List.append_assoc, List.cons_append]

theorem bigRequest_parse :
    parseHttpRequest ("GET /a.txt HTTP/1.1".data ++ '\r' :: '\n' ::
        (("X: ".data ++ List.replicate 8164 'a') ++ "\r\n\r\n".data)) "root".data 100 fsA =
      some (Except.ok (okHeaders "text/plain".data 2, some [104, 105], 2, false)) := by
  have hl1 : ∀ c ∈ "GET /a.txt HTTP/1.1".data, c ≠ '\n' := by decide
  have hl2 : ∀ c ∈ "X: ".data ++ List.replicate 8164 'a', c ≠ '\n' := by
    have hX : ∀ c ∈ "X: ".data, c ≠ '\n' := by decide
    intro c hc
    rcases List.mem_append.mp hc with h | h
    · exact hX c h
    · rw [List.eq_of_mem_replicate h]
      decide
  have hlines := rustLines_two "GET /a.txt HTTP/1.1".data
    ("X: ".data ++ List.replicate 8164 'a') hl1 hl2 (by decide)
  have hsws : splitWhitespaceR "GET /a.txt HTTP/1.1".data =
      ["GET".data, "/a.txt".data, "HTTP/1.1".data] := by decide
  simp only [parseHttpRequest]
  rw [hlines]
  simp only [List.isEmpty_cons, Bool.false_eq_true, if_false, List.headD_cons]
  rw [hsws]
  decide

theorem bigRequest_take :
    bigRequest.take 8191 ++ [10] = bigRequest := by
  have hsplit : bigRequest =
      (strBytes "GET /a.txt HTTP/1.1\r\nX: " ++ List.replicate 8164 97 ++ [13, 10, 13]) ++
        [10] := by
    show strBytes "GET /a.txt HTTP/1.1\r\nX: " ++ List.replicate 8164 97 ++ [13, 10, 13, 10] =
      (strBytes "GET /a.txt HTTP/1.1\r\nX: " ++ List.replicate 8164 97 ++ [13, 10, 13]) ++ [10]
    simp only [List.append_assoc, List.cons_append, List.nil_append]
  have hblen : (strBytes "GET /a.txt HTTP/1.1\r\nX: " ++ List.replicate 8164 97 ++
      [13, 10, 13]).length = 8191 := by
    have hlead : (strBytes "GET /a.txt HTTP/1.1\r\nX: ").length = 24 := by decide
    simp only [List.length_append, List.length_replicate, hlead, List.length_cons,
      List.length_nil]
  rw [hsplit, ← hblen, List.take_left]

/-- Claim C6: the end-of-headers detector reports completion exactly when
the received prefix contains CR LF CR LF or LF LF; in particular a
request of exactly 8192 bytes whose last four bytes are CR LF CR LF is
detected and parsed normally (here into the 200 response for
`/a.txt`). -/
theorem c6_end_of_headers_detector :
    (∀ b : List Nat, containsDoubleNewline b = true ↔
      (∃ xs ys, b = xs ++ [13, 10, 13, 10] ++ ys) ∨
      (∃ xs ys, b = xs ++ [10, 10] ++ ys)) ∧
    bigRequest.length = 8192 ∧
    containsDoubleNewline bigRequest = true ∧
    handleReadableInPool fsA "root".data 100 bigConn (ReadEvent.ok [10]) =
      some bigParsed := by
  have hdn : containsDoubleNewline bigRequest = true := by
    apply (containsDoubleNewline_iff _).mpr
    refine Or.inl ⟨strBytes "GET /a.txt HTTP/1.1\r\nX: " ++ List.replicate 8164 97, [], ?_⟩
    rw [List.append_nil]
    rfl
  refine ⟨containsDoubleNewline_iff, ?_, hdn, ?_⟩
  · have hlead : (strBytes "GET /a.txt HTTP/1.1\r\nX: ").length = 24 := by decide
    show (strBytes "GET /a.txt HTTP/1.1\r\nX: " ++ List.replicate 8164 97 ++
      [13, 10, 13, 10]).length = 8192
    simp only [List.length_append, List.length_replicate, hlead, List.length_cons,
      List.length_nil]
  · have hbuf : bigConn.requestBuf ++ [10] = bigRequest := bigRequest_take
    have hdn2 : containsDoubleNewline (bigConn.requestBuf ++ [10]) = true := by
      rw [hbuf]
      exact hdn
    rw [handleReadable_complete fsA "root".data 100 bigConn [10] rfl (by decide) hdn2]
    rw [hbuf, bigRequest_decode, bigRequest_parse]
    rfl

theorem noWs_noNl (l : List Char) (h : ∀ c ∈ l, isRustWhitespace c = false) :
    ∀ c ∈ l, c ≠ '\n' := by
  intro c hc he
  subst he
  exact absurd (h _ hc) (by decide)

theorem parse_mkRequest (method p docRoot : List Char) (maxf : Nat) (fs : FsModel)
    (hwm : ∀ c ∈ method, isRustWhitespace c = false) (hnm : method ≠ [])
    (hwp : ∀ c ∈ p, isRustWhitespace c = false) (hnp : p ≠ []) :
    parseHttpRequest (mkRequest method p) docRoot maxf fs =
      parsePath method p docRoot maxf fs := by
  have hline : mkRequest method p =
      (method ++ ' ' :: (p ++ ' ' :: "HTTP/1.1".data)) ++ "\r\n\r\n".data := by
    show method ++ ' ' :: (p ++ ' ' :: "HTTP/1.1\r\n\r\n".data) = _
    rw [show ("HTTP/1.1\r\n\r\n".data : List Char) =
      "HTTP/1.1".data ++ "\r\n\r\n".data from by decide]
    simp only [List.append_assoc, List.cons_append]
  have hnl : ∀ c ∈ method ++ ' ' :: (p ++ ' ' :: "HTTP/1.1".data), c ≠ '\n' := by
    have hH : ∀ c ∈ "HTTP/1.1".data, c ≠ '\n' := by decide
    intro c hc
    rcases List.mem_append.mp hc with h | h
    · exact noWs_noNl method hwm c h
    · rcases List.mem_cons.mp h with h | h
      · subst h
        decide
      · rcases List.mem_append.mp h with h | h
        · exact noWs_noNl p hwp c h
        · rcases List.mem_cons.mp h with h | h
          · subst h
            decide
          · exact hH c h
  have hlinene : method ++ ' ' :: (p ++ ' ' :: "HTTP/1.1".data) ≠ [] := by
    cases method with
    | nil => exact absurd rfl hnm
    | cons c cs => simp
  have hlines : rustLines (mkRequest method p) =
      [method ++ ' ' :: (p ++ ' ' :: "HTTP/1.1".data), []] := by
    rw [hline]
    exact rustLines_request _ hnl hlinene
  have hws : splitWhitespaceR (method ++ ' ' :: (p ++ ' ' :: "HTTP/1.1".data)) =
      [method, p, "HTTP/1.1".data] := by
    exact splitWhitespaceR_three method p "HTTP/1.1".data hwm hwp (by decide) hnm hnp
      (by decide)
  simp only [parseHttpRequest]
  rw [hlines]
  simp only [List.isEmpty_cons, Bool.false_eq_true, if_false, List.headD_cons]
  rw [hws]
  simp only [parseFirstLine, List.length_cons, List.length_nil]
  norm_num

theorem parsePath_strip (method p docRoot : List Char) (maxf : Nat) (fs : FsModel)
    (hdots : containsSub "..".data p = false) (hne : p ≠ "/".data)
    (hsl : p.headD ' ' = '/') :
    parsePath method p docRoot maxf fs =
      parseResolved method (pathJoin docRoot (p.drop 1)) maxf fs := by
  unfold parsePath
  rw [hdots]
  simp only [Bool.false_eq_true, if_false]
  rw [if_neg hne]
  cases p with
  | nil => exact absurd hsl (by decide)
  | cons c rest =>
      simp only [List.headD_cons] at hsl
      subst hsl
      simp only [stripFirstByte, show ('/').utf8Size = 1 from by decide, if_pos]
      rfl

theorem parseResolved_getOk (method fp : List Char) (maxf : Nat) (fs : FsModel)
    (hex : fs.pathExists fp = true) (hf : fs.isFile fp = true)
    (hm : fs.metaOk fp = true) (hsz : fs.fileSize fp ≤ maxf)
    (hopen : fs.openOk fp = true) (hmethod : method ≠ "HEAD".data) :
    parseResolved method fp maxf fs =
      some (Except.ok (okHeaders (getContentType fp) (fs.fileSize fp),
        some (fs.content fp), fs.fileSize fp, false)) := by
  have hlt : ¬(maxf < fs.fileSize fp) := Nat.not_lt.mpr hsz
  simp only [parseResolved, hex, hf, hm, hopen, hlt, hmethod, Bool.true_eq_false,
    if_false, if_neg hmethod]

theorem parseResolved_headOk (fp : List Char) (maxf : Nat) (fs : FsModel)
    (hex : fs.pathExists fp = true) (hf : fs.isFile fp = true)
    (hm : fs.metaOk fp = true) (hsz : fs.fileSize fp ≤ maxf) :
    parseResolved "HEAD".data fp maxf fs =
      some (Except.ok (okHeaders (getContentType fp) (fs.fileSize fp),
        none, fs.fileSize fp, true)) := by
  have hlt : ¬(maxf < fs.fileSize fp) := Nat.not_lt.mpr hsz
  simp only [parseResolved, hex, hf, hm, hlt, Bool.true_eq_false, if_false]
  exact if_pos trivial

theorem getContentType_eq_specMime (fp : List Char) :
    getContentType fp = specMime (rustExtension fp) := rfl

theorem driveSendFile_not_sendFile (fuel : Nat) (conn : Connection)
    (h : conn.stage ≠ ConnectionStage.sendFile) : driveSendFile fuel conn = [] := by
  cases fuel with
  | zero => rfl
  | succ n =>
      unfold driveSendFile
      rw [if_neg h]

theorem driveSendFile_no_file (fuel : Nat) (conn : Connection)
    (h : conn.file = none) : driveSendFile fuel conn = [] := by
  cases fuel with
  | zero => rfl
  | succ n =>
      unfold driveSendFile
      by_cases hs : conn.stage = ConnectionStage.sendFile
      · rw [if_pos hs, h]
      · rw [if_neg hs]

theorem handleWritable_template (content : List Nat) (pos : Nat) (fd : Int)
    (buf : List Nat) (hdrs : List Char) (hs : Nat) (ih : Bool) (w : Nat)
    (hw : w = ((content.drop pos).take 65536).length) (hpos : pos < content.length) :
    handleWritableInPool
      { fd := fd, stage := ConnectionStage.sendFile, requestBuf := buf,
        file := some { content := content, pos := pos }, fileSize := content.length,
        fileSent := pos, headers := hdrs, headersSent := hs, isHead := ih }
      (WriteEvent.ok w) FileReadResult.ok =
      (if content.length ≤ pos + w then
        { fd := fd, stage := ConnectionStage.close, requestBuf := buf,
          file := some { content := content, pos := pos + w }, fileSize := content.length,
          fileSent := pos + w, headers := hdrs, headersSent := hs, isHead := ih }
      else
        { fd := fd, stage := ConnectionStage.sendFile, requestBuf := buf,
          file := some { content := content, pos := pos + w }, fileSize := content.length,
          fileSent := pos + w, headers := hdrs, headersSent := hs, isHead := ih }) := by
  have hwlen : 0 < w := by
    rw [hw]
    simp only [List.length_take, List.length_drop]
    omega
  have hne : ((content.drop pos).take 65536).isEmpty = false := by
    cases hc : (content.drop pos).take 65536 with
    | nil =>
        rw [hw, hc] at hwlen
        simp at hwlen
    | cons a l => rfl
  obtain ⟨m, hm⟩ : ∃ m, w = m + 1 := ⟨w - 1, by omega⟩
  subst hm
  unfold handleWritableInPool
  simp only [hne, Bool.false_eq_true, if_false]
  by_cases hdone : content.length ≤ pos + (m + 1)
  · rw [if_pos hdone, if_pos hdone]
    rw [hw]
  · rw [if_neg hdone, if_neg hdone]
    rw [← hw]
    rw [if_neg (by omega : ¬(m + 1 < m + 1))]

theorem driveSendFile_template : ∀ (fuel : Nat) (content : List Nat) (pos : Nat)
    (fd : Int) (buf : List Nat) (hdrs : List Char) (hs : Nat) (ih : Bool),
    content.length - pos ≤ fuel * 65536 →
    driveSendFile (fuel + 1)
      { fd := fd, stage := ConnectionStage.sendFile, requestBuf := buf,
        file := some { content := content, pos := pos }, fileSize := content.length,
        fileSent := pos, headers := hdrs, headersSent := hs, isHead := ih } =
      content.drop pos := by
  intro fuel
  induction fuel with
  | zero =>
      intro content pos fd buf hdrs hs ih hrem
      have hdrop : content.drop pos = [] := List.drop_eq_nil_of_le (by omega)
      unfold driveSendFile
      rw [if_pos rfl]
      simp only [hdrop, List.take_nil, List.nil_append]
      rfl
  | succ fuel ihf =>
      intro content pos fd buf hdrs hs ih hrem
      by_cases hend : content.length ≤ pos
      · have hdrop : content.drop pos = [] := List.drop_eq_nil_of_le hend
        unfold driveSendFile
        rw [if_pos rfl]
        simp only [hdrop, List.take_nil, List.nil_append]
        apply driveSendFile_not_sendFile
        intro hcontra
        unfold handleWritableInPool at hcontra
        simp [hdrop] at hcontra
      · have hlt : pos < content.length := Nat.lt_of_not_le hend
        have hclen : ((content.drop pos).take 65536).length =
            min 65536 (content.length - pos) := by
          simp [List.length_take, List.length_drop]
        unfold driveSendFile
        rw [if_pos rfl]
        simp only []
        rw [handleWritable_template content pos fd buf hdrs hs ih _ rfl hlt]
        by_cases hdone : content.length ≤ pos + ((content.drop pos).take 65536).length
        · rw [if_pos hdone]
          rw [driveSendFile_not_sendFile _ _ (by intro h; exact absurd h (by simp))]
          rw [List.append_nil]
          exact List.take_of_length_le (by simp [List.length_drop]; omega)
        · rw [if_neg hdone]
          have hc65536 : ((content.drop pos).take 65536).length = 65536 := by omega
          rw [hc65536]
          rw [ihf content (pos + 65536) fd buf hdrs hs ih (by omega)]
          rw [show content.drop (pos + 65536) = (content.drop pos).drop 65536 from by
            rw [List.drop_drop]]
          exact List.take_append_drop 65536 (content.drop pos)

theorem okHeaders_shape (ct : List Char) (n : Nat) :
    okHeaders ct n = "HTTP/1.1 200 OK\r\n".data ++ "Content-Type: ".data ++ ct ++
      "\r\nContent-Length: ".data ++ (toString n).data ++
      "\r\nConnection: close\r\n\r\n".data := rfl

/-- Claim C1 (counterexample): the claim fails for a legitimate file whose
name contains two consecutive dots.  `root/a..txt` exists, is regular and
is within the size limit, yet the GET for it yields the 403 traversal
response rather than a 200. -/
theorem c1_dotdot_counterexample :
    fsDots.pathExists "root/a..txt".data = true ∧
    fsDots.isFile "root/a..txt".data = true ∧
    fsDots.fileSize "root/a..txt".data ≤ 100 ∧
    parseHttpRequest (mkRequest "GET".data "/a..txt".data) "root".data 100 fsDots =
      some (Except.error (formatErrorResponse HttpStatus.forbidden)) ∧
    formatErrorResponse HttpStatus.forbidden ≠
      okHeaders (getContentType "root/a..txt".data) 1 := by
  refine ⟨by decide, by decide, by decide, by decide, by decide⟩

/-- Claim C1 (amended theorem): for every file under `document_root`
addressed by a clean request path — slash-prefixed, whitespace-free,
free of the `..` substring, not the bare `/` — that exists, is a regular
file, has readable metadata, opens successfully and fits in
`max_file_size`: a GET produces exactly the 200 header block
`HTTP/1.1 200 OK` / `Content-Type` (the MIME table's case-insensitive
mapping of the extension, defaulting to `application/octet-stream`) /
`Content-Length = |F|` / `Connection: close`, attaching the file whose
bytes the SendFile stage then serves verbatim; a HEAD yields the same
headers with no file attached, and with no file attached no body bytes
are ever served. -/
theorem c1_roundtrip (docRoot p : List Char) (maxf : Nat) (fs : FsModel)
    (hsl : p.headD ' ' = '/') (hws : ∀ c ∈ p, isRustWhitespace c = false)
    (hdots : containsSub "..".data p = false) (hroot : p ≠ "/".data)
    (hex : fs.pathExists (pathJoin docRoot (p.drop 1)) = true)
    (hf : fs.isFile (pathJoin docRoot (p.drop 1)) = true)
    (hm : fs.metaOk (pathJoin docRoot (p.drop 1)) = true)
    (hsz : fs.fileSize (pathJoin docRoot (p.drop 1)) ≤ maxf)
    (hopen : fs.openOk (pathJoin docRoot (p.drop 1)) = true)
    (hlen : fs.fileSize (pathJoin docRoot (p.drop 1)) =
      (fs.content (pathJoin docRoot (p.drop 1))).length) :
    (parseHttpRequest (mkRequest "GET".data p) docRoot maxf fs =
      some (Except.ok (
        "HTTP/1.1 200 OK\r\n".data ++ "Content-Type: ".data ++
          specMime (rustExtension (pathJoin docRoot (p.drop 1))) ++
          "\r\nContent-Length: ".data ++
          (toString (fs.fileSize (pathJoin docRoot (p.drop 1)))).data ++
          "\r\nConnection: close\r\n\r\n".data,
        some (fs.content (pathJoin docRoot (p.drop 1))),
        fs.fileSize (pathJoin docRoot (p.drop 1)), false))) ∧
    (parseHttpRequest (mkRequest "HEAD".data p) docRoot maxf fs =
      some (Except.ok (
        "HTTP/1.1 200 OK\r\n".data ++ "Content-Type: ".data ++
          specMime (rustExtension (pathJoin docRoot (p.drop 1))) ++
          "\r\nContent-Length: ".data ++
          (toString (fs.fileSize (pathJoin docRoot (p.drop 1)))).data ++
          "\r\nConnection: close\r\n\r\n".data,
        none, fs.fileSize (pathJoin docRoot (p.drop 1)), true))) ∧
    (∀ conn : Connection, conn.stage = ConnectionStage.sendFile →
      conn.file = some { content := fs.content (pathJoin docRoot (p.drop 1)), pos := 0 } →
      conn.fileSent = 0 →
      conn.fileSize = fs.fileSize (pathJoin docRoot (p.drop 1)) →
      driveSendFile ((fs.content (pathJoin docRoot (p.drop 1))).length + 1) conn =
        fs.content (pathJoin docRoot (p.drop 1))) ∧
    (∀ (fuel : Nat) (conn : Connection), conn.file = none →
      driveSendFile fuel conn = []) := by
  have hnp : p ≠ [] := by
    intro h
    subst h
    exact absurd hsl (by decide)
  refine ⟨?_, ?_, ?_, fun fuel conn h => driveSendFile_no_file fuel conn h⟩
  · rw [parse_mkRequest "GET".data p docRoot maxf fs (by decide) (by decide) hws hnp]
    rw [parsePath_strip _ _ _ _ _ hdots hroot hsl]
    rw [parseResolved_getOk _ _ _ _ hex hf hm hsz hopen (by decide)]
    rw [getContentType_eq_specMime, okHeaders_shape]
  · rw [parse_mkRequest "HEAD".data p docRoot maxf fs (by decide) (by decide) hws hnp]
    rw [parsePath_strip _ _ _ _ _ hdots hroot hsl]
    rw [parseResolved_headOk _ _ _ hex hf hm hsz]
    rw [getContentType_eq_specMime, okHeaders_shape]
  · intro conn h1 h2 h3 h4
    obtain ⟨cfd, cstage, cbuf, cfile, csz, csent, chdr, chsent, chead⟩ := conn
    have h1' : cstage = ConnectionStage.sendFile := h1
    have h2' : cfile = some { content := fs.content (pathJoin docRoot (p.drop 1)), pos := 0 } := h2
    have h3' : csent = 0 := h3
    have h4' : csz = (fs.content (pathJoin docRoot (p.drop 1))).length := by
      have : csz = fs.fileSize (pathJoin docRoot (p.drop 1)) := h4
      rw [this, hlen]
    subst h1'
    subst h2'
    subst h3'
    subst h4'
    have hbound : (fs.content (pathJoin docRoot (p.drop 1))).length - 0 ≤
        (fs.content (pathJoin docRoot (p.drop 1))).length * 65536 := by
      have hmul : (fs.content (pathJoin docRoot (p.drop 1))).length * 1 ≤
          (fs.content (pathJoin docRoot (p.drop 1))).length * 65536 :=
        Nat.mul_le_mul_left _ (by norm_num)
      omega
    have hfin := driveSendFile_template (fs.content (pathJoin docRoot (p.drop 1))).length
      (fs.content (pathJoin docRoot (p.drop 1))) 0 cfd cbuf chdr chsent chead hbound
    rw [List.drop_zero] at hfin
    exact hfin

/-- Claim C1 witness: the two-byte `root/a.txt` served via `GET /a.txt`
under a 100-byte limit. -/
theorem c1_roundtrip_witness :
    fsA.pathExists (pathJoin "root".data ("/a.txt".data.drop 1)) = true ∧
    (parseHttpRequest (mkRequest "GET".data "/a.txt".data) "root".data 100 fsA =
      some (Except.ok (
        "HTTP/1.1 200 OK\r\n".data ++ "Content-Type: ".data ++
          specMime (rustExtension (pathJoin "root".data ("/a.txt".data.drop 1))) ++
          "\r\nContent-Length: ".data ++
          (toString (fsA.fileSize (pathJoin "root".data ("/a.txt".data.drop 1)))).data ++
          "\r\nConnection: close\r\n\r\n".data,
        some (fsA.content (pathJoin "root".data ("/a.txt".data.drop 1))),
        fsA.fileSize (pathJoin "root".data ("/a.txt".data.drop 1)), false))) :=
  ⟨by decide,
   (c1_roundtrip "root".data "/a.txt".data 100 fsA (by decide) (by decide) (by decide)
     (by decide) (by decide) (by decide) (by decide) (by decide) (by decide)
     (by decide)).1⟩
